import Mathlib

/-!
# Ghost Conscience Kernel — verification of the specification against the source

This file gives a shallow embedding, in Lean 4, of the decision logic of the
Ghost repository (`conscience_go`), and proves or refutes the frozen claims
about it.  The embedded components are:

* the Conscience Kernel validator
  (`conscience_go/internal/conscience/validator.go`): allowlist, path safety,
  blocked-keyword sweep, risk scoring, override gate, focus gate, audit log;
* the gRPC service (`conscience_go/internal/service/service.go`):
  `RequestPermission`, action enqueueing to the Sentinel stream, intent
  recording;
* the legacy line-protocol kernel (`src/kernel/main.go`):
  `evaluatePermission` and `isDangerousAction`;
* the intent-history repository (`internal/adapter/intent_history.go`):
  `RecordSuccess`, `GetTrustScore`, `GetReflex`, `InvalidateReflex`;
* the JSON-RPC gateway (`internal/gateway/server.go`): connection loop,
  `connect` authentication, method dispatch.

Modelling conventions: Go strings are Lean `String`s (the inputs of interest
are ASCII, for which Go byte indexing and Lean character indexing agree, and
`strings.ToLower`/`ToUpper` agree with `Char.toLower`/`toUpper`); Go `int` risk
levels are `Int`; `json.RawMessage` payloads are carried as the raw text
together with the result of `json.Unmarshal` on that text (the JSON parser
itself is treated as an oracle, supplied with each action); side effects
(audit appends, channel sends, asynchronous `RecordSuccess` calls) are made
explicit in the return values.
-/

namespace Ghost

/-! ## String helpers (Go `strings` package, ASCII fragment) -/

/-- `leadMatch s pat` : does the character list `s` start with `pat`?
(Go `strings.HasPrefix` on the underlying bytes.) -/
def leadMatch : List Char → List Char → Bool
  | _, [] => true
  | [], _ :: _ => false
  | a :: as, b :: bs => a == b && leadMatch as bs

/-- `hasSub s pat` : does `s` contain `pat` as a contiguous sublist?
(Go `strings.Contains` on the underlying bytes; an empty pattern matches.) -/
def hasSub : List Char → List Char → Bool
  | [], pat => pat.isEmpty
  | a :: rest, pat => leadMatch (a :: rest) pat || hasSub rest pat

/-- Go `strings.Contains s sub`. -/
def goContains (s sub : String) : Bool := hasSub s.toList sub.toList

/-- Go `strings.HasPrefix s pre`. -/
def goHasPre (s pre : String) : Bool := leadMatch s.toList pre.toList

/-- Go `strings.ToLower` (ASCII). -/
def goToLower (s : String) : String := String.mk (s.toList.map Char.toLower)

/-- Go `strings.ToUpper` (ASCII). -/
def goToUpper (s : String) : String := String.mk (s.toList.map Char.toUpper)

/-- Go `len(path) > 1 && path[1] == ':'` (ASCII: byte 1 is character 1). -/
def secondCharIsColon (s : String) : Bool :=
  match s.toList with
  | _ :: c :: _ => c == ':'
  | _ => false

/-! ## `path/filepath` (Unix semantics)

`filepath.Clean` processes the path lexically: it drops empty and `.`
components and resolves `..` against the preceding component, keeping leading
`..` components of a relative path.  `filepath.IsAbs` is a `/`-prefix test. -/

/-- Split a character list on a separator (Go `strings.Split` on one byte). -/
def splitOnChar (sep : Char) : List Char → List Char → List (List Char)
  | [], acc => [acc.reverse]
  | c :: rest, acc =>
      if c = sep then acc.reverse :: splitOnChar sep rest []
      else splitOnChar sep rest (c :: acc)

/-- One step of the `Clean` stack machine: push a component onto the (reversed)
output stack.  `rooted` tells whether the original path was absolute. -/
def cleanStep (rooted : Bool) (acc : List (List Char)) (c : List Char) :
    List (List Char) :=
  if c = ['.', '.'] then
    match acc with
    | [] => if rooted then [] else [['.', '.']]
    | a :: rest => if a = ['.', '.'] then ['.', '.'] :: a :: rest else rest
  else c :: acc

/-- Go `filepath.Clean` (Unix separator): drop empty and `.` components,
resolve `..` against the preceding component (keeping leading `..` of a
relative path), re-join. -/
def cleanPath (p : String) : String :=
  if p = "" then "."
  else
    let rooted := leadMatch p.toList ['/']
    let comps := (splitOnChar '/' p.toList []).filter
      (fun c => c ≠ [] && c ≠ ['.'])
    let out := (comps.foldl (cleanStep rooted) []).reverse
    let joined := (List.intersperse ['/'] out).flatten
    if rooted then String.mk ('/' :: joined)
    else if joined = [] then "." else String.mk joined

/-- Go `filepath.IsAbs` (Unix). -/
def goIsAbs (p : String) : Bool := goHasPre p "/"

/-! ## Conscience validator data model (`internal/protocol/types.go`) -/

/-- Risk level constants (`protocol.RiskLevel`). -/
def riskNone : Int := 0
/-- `RiskLevelLow`. -/
def riskLow : Int := 1
/-- `RiskLevelMedium`. -/
def riskMedium : Int := 3
/-- `RiskLevelHigh`. -/
def riskHigh : Int := 7
/-- `RiskLevelCritical`. -/
def riskCritical : Int := 10

/-- A JSON value as observed by `validateActionPath` after
`json.Unmarshal` into `map[string]interface{}`: the code only distinguishes
string values from everything else. -/
inductive JVal where
  | jstr (s : String)
  | jother
deriving DecidableEq, Repr

/-- `protocol.LegacyAction`.  The `json.RawMessage` payload is carried as the
raw text (`payloadRaw`, `""` when absent) together with the outcome of
`json.Unmarshal` of that text into `map[string]interface{}`
(`payloadParse`, `none` on a parse error).  `RequiresWindow` is unused by the
validator and omitted. -/
structure LegacyAction where
  type : String
  target : String := ""
  payloadRaw : String := ""
  payloadParse : Option (List (String × JVal)) := none
  riskLevel : Int := 0
deriving DecidableEq, Repr

/-- `protocol.ActionValidationRequest` (the `TraceID` field is never read by
the validator and is omitted). -/
structure ValidationRequest where
  requestID : String
  intent : String
  actions : List LegacyAction
  expectedWindow : String := ""
  override : Bool := false
deriving DecidableEq, Repr

/-- `protocol.ActionValidationResult`. -/
structure ValidationResult where
  valid : Bool
  blocked : Bool
  reason : String := ""
  riskLevel : Int := 0
  override : Bool := false
  trustScore : Nat := 0
deriving DecidableEq, Repr

/-- `conscience.AuditEntry` (the wall-clock timestamp is not modelled). -/
structure AuditEntry where
  requestID : String
  intent : String
  riskLevel : Int
  blocked : Bool
  reason : String
  override : Bool
deriving DecidableEq, Repr

/-! ## Conscience validator rules (`internal/conscience/validator.go`) -/

/-- `conscience.BlockedKeywords`. -/
def blockedKeywords : List String :=
  ["password", "credential", "secret", "api_key", "token",
   "credit_card", "ssn", "social_security",
   "delete_all", "drop_table", "rm -rf",
   "format", "fdisk"]

/-- `conscience.DangerousActionTypes` (type → base risk). -/
def dangerousActionRisk (t : String) : Option Int :=
  if t = "DELETE" then some riskHigh
  else if t = "SUBMIT" then some riskMedium
  else if t = "TYPE" then some riskLow
  else if t = "CLICK" then some riskLow
  else if t = "KEY" then some riskLow
  else if t = "HOTKEY" then some riskMedium
  else if t = "OPEN_URL" then some riskMedium
  else if t = "SCROLL" then some riskNone
  else if t = "SCREENSHOT" then some riskNone
  else if t = "WAIT" then some riskNone
  else if t = "FOCUS" then some riskNone
  else if t = "FILE_WRITE" then some riskHigh
  else if t = "FILE_DELETE" then some riskCritical
  else if t = "EXECUTE" then some riskCritical
  else if t = "WRITE" then some riskHigh
  else if t = "EDIT" then some riskHigh
  else if t = "READ" then some riskMedium
  else if t = "LIST" then some riskLow
  else if t = "SEARCH" then some riskLow
  else if t = "SCAN" then some riskNone
  else if t = "SPEAK" then some riskNone
  else if t = "MEMORIZE" then some riskNone
  else none

/-- `conscience.AllowedActionTypes`. -/
def allowedActionTypes (t : String) : Bool :=
  t = "KEY" || t = "TYPE" || t = "CLICK" || t = "WAIT" || t = "SPEAK" ||
  t = "MEMORIZE" || t = "SCAN" || t = "LIST" || t = "READ" ||
  t = "SEARCH" || t = "WRITE" || t = "EDIT"

/-- `Validator.validateFileSystemPath`. -/
def validateFileSystemPath (path : String) : Bool :=
  if goHasPre path "/" || goHasPre path "\\" || secondCharIsColon path then false
  else if goIsAbs path then false
  else
    let clean := cleanPath path
    if goHasPre clean ".." || goIsAbs clean then false
    else if secondCharIsColon clean then false
    else true

/-- First-match lookup in the unmarshalled payload map (Go map indexing; keys
produced by `json.Unmarshal` of an object are unique). -/
def payloadLookup (m : List (String × JVal)) (key : String) : Option JVal :=
  match m.find? (fun p => p.1 == key) with
  | some p => some p.2
  | none => none

/-- The `checkPath` closure inside `Validator.validateActionPath`.
`some msg` is the error, `none` is success. -/
def checkPathKey (m : List (String × JVal)) (key : String) : Option String :=
  match payloadLookup m key with
  | none => some ("missing required key \x27" ++ key ++ "\x27")
  | some (JVal.jstr s) =>
      if validateFileSystemPath s then none
      else some ("invalid path \x27" ++ s ++ "\x27 (must be relative and safe)")
  | some JVal.jother => some ("key \x27" ++ key ++ "\x27 must be a string")

/-- `Validator.validateActionPath`.  `some msg` is the error, `none` success. -/
def validateActionPath (a : LegacyAction) : Option String :=
  let t := goToUpper a.type
  if a.payloadRaw = "" then
    if t = "WRITE" || t = "EDIT" || t = "READ" || t = "LIST" || t = "SEARCH" then
      some ("missing payload for action type \x27" ++ t ++ "\x27")
    else none
  else
    match a.payloadParse with
    | none => some "invalid payload json"
    | some m =>
        if t = "WRITE" || t = "EDIT" || t = "READ" then checkPathKey m "path"
        else if t = "LIST" then
          match payloadLookup m "directory" with
          | some _ => checkPathKey m "directory"
          | none => checkPathKey m "path"
        else if t = "SEARCH" then checkPathKey m "directory"
        else none

/-- `Validator.evaluateActionRisk`: the explicitly declared risk when
positive, else the type-based risk, else `RiskLevelLow`. -/
def evaluateActionRisk (a : LegacyAction) : Int :=
  if a.riskLevel > riskNone then a.riskLevel
  else
    match dangerousActionRisk (goToUpper a.type) with
    | some r => r
    | none => riskLow

/-- `Validator.containsBlockedKeyword`: case-insensitive substring sweep over
the target and, when present, the raw payload bytes.  (No action type is
exempted here.) -/
def containsBlockedKeyword (a : LegacyAction) : Bool :=
  blockedKeywords.any (fun kw => goContains (goToLower a.target) kw) ||
  (a.payloadRaw ≠ "" &&
    blockedKeywords.any (fun kw => goContains (goToLower a.payloadRaw) kw))

/-- `(i, aᵢ)` pairs in order, mirroring `for i := range req.Actions`. -/
def enumFrom {α : Type} (n : Nat) : List α → List (Nat × α)
  | [] => []
  | a :: rest => (n, a) :: enumFrom (n + 1) rest

/-- The audit entry built by `Validator.logAudit` from a request and result. -/
def mkAudit (req : ValidationRequest) (res : ValidationResult) : AuditEntry :=
  { requestID := req.requestID, intent := req.intent, riskLevel := res.riskLevel,
    blocked := res.blocked, reason := res.reason, override := res.override }

/-- The per-action loop of `Validator.ValidateAction`: allowlist, path safety
and keyword sweep in order, accumulating the maximum risk.  An early denial is
returned on the left; a completed pass returns the accumulated risk on the
right. -/
def validateLoop (trust : String → Nat) (req : ValidationRequest) :
    List (Nat × LegacyAction) → Int → Sum ValidationResult Int
  | [], maxRisk => Sum.inr maxRisk
  | (i, a) :: rest, maxRisk =>
    if !allowedActionTypes (goToUpper a.type) then
      Sum.inl { valid := false, blocked := true,
                reason := "Action type \x27" ++ a.type ++ "\x27 is not allowed",
                riskLevel := riskCritical }
    else
      match validateActionPath a with
      | some err =>
          Sum.inl { valid := false, blocked := true,
                    reason := "Path validation failed for action " ++ toString i
                       ++ ": " ++ err,
                    riskLevel := riskCritical }
      | none =>
          let r := evaluateActionRisk a
          let maxRisk2 := if r > maxRisk then r else maxRisk
          if containsBlockedKeyword a then
            Sum.inl { valid := false, blocked := true, override := req.override,
                      trustScore := trust req.intent,
                      reason := "Action " ++ toString i
                         ++ " contains blocked keyword pattern",
                      riskLevel := riskCritical }
          else validateLoop trust req rest maxRisk2

/-- `Validator.ValidateAction`.  The validator state is passed explicitly:
`focusedWindow` and the `trustScores` map (as a total function, Go map lookup
defaulting to 0).  A `nil` request pointer is `none`.  The returned list holds
the audit entries appended during the call, in order. -/
def validateActionGo (focusedWindow : String) (trust : String → Nat)
    (req? : Option ValidationRequest) : ValidationResult × List AuditEntry :=
  match req? with
  | none =>
      ({ valid := false, blocked := true, reason := "Nil validation request" }, [])
  | some req =>
      match validateLoop trust req (enumFrom 0 req.actions) riskNone with
      | Sum.inl res => (res, [mkAudit req res])
      | Sum.inr maxRisk =>
          if maxRisk ≥ riskHigh && !req.override then
            let res : ValidationResult :=
              { valid := false, blocked := true, override := req.override,
                trustScore := trust req.intent, riskLevel := maxRisk,
                reason := "High risk action (level " ++ toString maxRisk
                   ++ ") requires explicit override" }
            (res, [mkAudit req res])
          else if req.expectedWindow ≠ "" && focusedWindow ≠ "" &&
              !goContains (goToLower focusedWindow) (goToLower req.expectedWindow) then
            let res : ValidationResult :=
              { valid := false, blocked := true, override := req.override,
                trustScore := trust req.intent, riskLevel := maxRisk,
                reason := "Focus mismatch: expected \x27" ++ req.expectedWindow
                   ++ "\x27, got \x27" ++ focusedWindow ++ "\x27" }
            (res, [mkAudit req res])
          else
            let res : ValidationResult :=
              { valid := true, blocked := false, override := req.override,
                trustScore := trust req.intent, riskLevel := maxRisk }
            (res, [mkAudit req res])

/-- The maximum risk across a proposal's actions, as accumulated by the
validation loop (starting from `RiskLevelNone`). -/
def computedRisk (actions : List LegacyAction) : Int :=
  actions.foldl (fun m a => if evaluateActionRisk a > m then evaluateActionRisk a else m)
    riskNone

/-! ## `Validator.RequestApproval` (gateway adapter of the validator) -/

/-- `protocol.ExecApprovalRequestParams`.  `Actions` is a `json.RawMessage`:
the raw text is kept alongside the result of `json.Unmarshal` into
`[]LegacyAction` (`none` on a parse error). -/
structure ExecApprovalParams where
  requestID : String
  intent : String
  actionsRaw : String
  actionsParse : Option (List LegacyAction)
  riskLevel : Int := 0
  expectedWindow : String := ""
deriving Repr

/-- `protocol.ExecApprovalResult` (without the unused `ErrorCode`). -/
structure ExecApprovalResult where
  requestID : String
  approved : Bool
  reason : String := ""
  trustScore : Nat := 0
deriving DecidableEq, Repr

/-- `Validator.RequestApproval`.  On a failed unmarshal of `req.Actions` the
fallback single action of type `UNKNOWN` is substituted, carrying the raw
bytes as its payload and `MALFORMED_JSON_FALLBACK` as its target.  `freshId`
stands for the `uuid.New().String()` value used when the request id is
empty. -/
def requestApproval (focusedWindow : String) (trust : String → Nat)
    (freshId : String) (req : ExecApprovalParams) : ExecApprovalResult :=
  let actions : List LegacyAction :=
    match req.actionsParse with
    | some as => as
    | none =>
        [{ type := "UNKNOWN", riskLevel := req.riskLevel,
           target := "MALFORMED_JSON_FALLBACK",
           payloadRaw := req.actionsRaw, payloadParse := none }]
  let rid := if req.requestID = "" then freshId else req.requestID
  let valReq : ValidationRequest :=
    { requestID := rid, intent := req.intent, actions := actions,
      expectedWindow := req.expectedWindow, override := false }
  let result := (validateActionGo focusedWindow trust (some valReq)).1
  { requestID := rid, approved := result.valid && !result.blocked,
    reason := result.reason, trustScore := result.trustScore }

/-! ## gRPC service (`internal/service/service.go`)

`RequestPermission` converts the proto actions (string-map payloads) to
`LegacyAction`s by `json.Marshal`-ling each payload map, calls the validator,
and — when the validator approves — immediately spawns the intent-recording
goroutine and enqueues one `ActionCommand` per action on the Sentinel stream
channel (capacity 100, drop-newest when full).  The persisted system state
(`ACTIVE`/`SHADOW`/`PAUSED`, `StateRepo`) is *not read* on this path; it is
threaded through the model as an explicit, unused parameter to make that
visible. -/

/-- `domain.AppState`. -/
inductive SystemMode where
  | active
  | shadow
  | paused
deriving DecidableEq, Repr

/-- A proto `Action`: type plus a `map<string,string>` payload (`[]` models
the nil map of an absent payload). -/
structure GrpcAction where
  type : String
  payload : List (String × String) := []
deriving DecidableEq, Repr

/-- `pb.PermissionRequest` (fields read by `RequestPermission`). -/
structure GrpcPermissionRequest where
  intent : String
  traceId : String
  actions : List GrpcAction
deriving DecidableEq, Repr

/-- `pb.PermissionResponse`. -/
structure GrpcPermissionResponse where
  approved : Bool
  reason : String := ""
  trustScore : Nat := 0
deriving DecidableEq, Repr

/-- `pb.ActionCommand`. -/
structure ActionCommand where
  commandId : String
  action : GrpcAction
deriving DecidableEq, Repr

/-- Go `encoding/json` string escaping (including the default HTML escapes). -/
def jsonEscapeChar (c : Char) : String :=
  if c = Char.ofNat 34 then "\\\""
  else if c = Char.ofNat 92 then "\\\\"
  else if c = Char.ofNat 10 then "\\n"
  else if c = Char.ofNat 13 then "\\r"
  else if c = Char.ofNat 9 then "\\t"
  else if c = Char.ofNat 60 then "\\u003c"
  else if c = Char.ofNat 62 then "\\u003e"
  else if c = Char.ofNat 38 then "\\u0026"
  else if c.toNat < 32 then
    "\\u00" ++ String.singleton (Nat.digitChar (c.toNat / 16))
       ++ String.singleton (Nat.digitChar (c.toNat % 16))
  else String.singleton c

/-- A JSON string literal as produced by `json.Marshal`. -/
def jsonQuote (s : String) : String :=
  "\"" ++ String.join (s.toList.map jsonEscapeChar) ++ "\""

/-- Key-ordered insertion (Go `json.Marshal` emits map keys in sorted byte
order; for ASCII keys `String` order agrees). -/
def insertByKey (p : String × String) : List (String × String) → List (String × String)
  | [] => [p]
  | q :: rest => if p.1 ≤ q.1 then p :: q :: rest else q :: insertByKey p rest

/-- Sort a string map's entries by key. -/
def sortByKey (l : List (String × String)) : List (String × String) :=
  l.foldr insertByKey []

/-- `json.Marshal` of a `map[string]string`: a nil map marshals to `null`,
otherwise a key-sorted JSON object. -/
def marshalStringMap (m : List (String × String)) : String :=
  match m with
  | [] => "null"
  | _ =>
      "\x7b" ++ String.intercalate ","
        ((sortByKey m).map (fun p => jsonQuote p.1 ++ ":" ++ jsonQuote p.2))
        ++ "\x7d"

/-- The conversion inside `RequestPermission`: payload map marshalled to JSON
bytes, declared risk `RiskLevelNone` (the validator assesses).  Unmarshalling
the marshalled bytes recovers the same map (`null` leaves the map nil, which
reads as empty), so the parse oracle is the map itself. -/
def toLegacyAction (a : GrpcAction) : LegacyAction :=
  { type := a.type, target := "",
    payloadRaw := marshalStringMap a.payload,
    payloadParse := some (a.payload.map (fun p => (p.1, JVal.jstr p.2))),
    riskLevel := riskNone }

/-- The outcome of one `RequestPermission` call, with its side effects made
explicit. -/
structure PermissionOutcome where
  response : GrpcPermissionResponse
  /-- `ActionCommand`s enqueued on `actionChan` (drained by `StreamActions`
  to the Sentinel). -/
  enqueued : List ActionCommand
  /-- whether the `IntentRepo.RecordSuccess` / `Validator.RecordSuccess`
  goroutine was spawned. -/
  recordedSuccess : Bool
deriving DecidableEq, Repr

/-- `GhostService.RequestPermission`.  `mode` is the persisted system state;
the function body never consults it (nor any proposal status), mirroring the
source.  `chanFree` is the free capacity of `actionChan`; the per-command
non-blocking send drops commands once it reaches zero. -/
def requestPermission (mode : SystemMode) (focusedWindow : String)
    (trust : String → Nat) (chanFree : Nat)
    (req : GrpcPermissionRequest) : PermissionOutcome :=
  let _ := mode
  let legacy := req.actions.map toLegacyAction
  let valReq : ValidationRequest :=
    { requestID := req.traceId, intent := req.intent, actions := legacy,
      expectedWindow := "", override := false }
  let result := (validateActionGo focusedWindow trust (some valReq)).1
  if !result.valid || result.blocked then
    { response := { approved := false, reason := result.reason,
                    trustScore := result.trustScore },
      enqueued := [], recordedSuccess := false }
  else
    let cmds := (enumFrom 0 req.actions).map
      (fun p => ({ commandId := req.traceId ++ "-" ++ toString p.1,
                   action := p.2 } : ActionCommand))
    { response := { approved := true, trustScore := result.trustScore },
      enqueued := cmds.take chanFree, recordedSuccess := true }

/-! ## Legacy line-protocol kernel (`src/kernel/main.go`) -/

/-- A payload value in the legacy kernel's `map[string]interface{}`. -/
inductive GVal where
  | gstr (s : String)
  | gother
deriving DecidableEq, Repr

/-- The legacy kernel's `Action`. -/
structure GAction where
  type : String
  payload : List (String × GVal) := []
deriving DecidableEq, Repr

/-- The legacy kernel's `PermissionRequest` (fields read by
`evaluatePermission`). -/
structure GRequest where
  id : String
  intent : String
  actions : List GAction
  expectedWindow : String := ""
deriving DecidableEq, Repr

/-- The legacy kernel's `PermissionResponse`. -/
structure GResponse where
  id : String
  approved : Bool
  reason : String := ""
  errorCode : String := ""
  trustScore : Nat := 0
deriving DecidableEq, Repr

/-- `security` section of the kernel `Config`. -/
structure KernelConfig where
  safeMode : Bool
  blockedKeywords : List String
deriving DecidableEq, Repr

/-- The safe defaults of `loadConfig` when `config.json` is missing. -/
def legacyDefaultConfig : KernelConfig :=
  { safeMode := true, blockedKeywords := ["delete", "rm ", "format ", "shutdown"] }

/-- First-match lookup in a legacy payload map. -/
def gvalLookup (m : List (String × GVal)) (key : String) : Option GVal :=
  match m.find? (fun p => p.1 == key) with
  | some p => some p.2
  | none => none

/-- `isDangerousAction`: keyword sweep over the action type and — except for
`SPEAK` actions — over the string payload fields
`text, content, path, find, replace`. -/
def isDangerousAction (cfg : KernelConfig) (a : GAction) : Bool :=
  if !cfg.safeMode then false
  else if cfg.blockedKeywords.any
      (fun kw => goContains (goToLower a.type) (goToLower kw)) then true
  else if a.type ≠ "SPEAK" then
    ["text", "content", "path", "find", "replace"].any (fun field =>
      match gvalLookup a.payload field with
      | some (GVal.gstr v) =>
          cfg.blockedKeywords.any (fun kw => goContains (goToLower v) (goToLower kw))
      | _ => false)
  else false

/-- `evaluatePermission`: focus gate (applied whenever `expectedWindow` is
non-empty, against the current focus even when that focus is empty), then the
dangerous-action sweep, then the informational trust score.  `trust` stands
for `intentHistoryRepo.GetTrustScore` (errors ignored); the lookup is skipped
when the focused window is empty. -/
def evaluatePermission (focusedWindow : String)
    (trust : String → String → Nat) (cfg : KernelConfig)
    (req : GRequest) : GResponse :=
  if req.expectedWindow ≠ "" &&
      !goContains (goToLower focusedWindow) (goToLower req.expectedWindow) then
    { id := req.id, approved := false,
      reason := "Focus mismatch: Expected \x27" ++ req.expectedWindow
         ++ "\x27, but focused on \x27" ++ focusedWindow ++ "\x27",
      errorCode := "FOCUS_MISMATCH" }
  else
    match req.actions.find? (isDangerousAction cfg) with
    | some a =>
        { id := req.id, approved := false,
          reason := "Dangerous action detected: " ++ a.type }
    | none =>
        let ts := if focusedWindow ≠ "" then trust req.intent focusedWindow else 0
        { id := req.id, approved := true, trustScore := ts }

/-! ## Intent-history repository (`internal/adapter/intent_history.go`)

The `intent_history` table is modelled as a list of rows in insertion
(rowid) order.  `executed_at` timestamps are `Nat`s supplied by the caller.
The `RecordSuccess` lookup (`SELECT ... LIMIT 1` without `ORDER BY`, which
SQLite serves in rowid order) finds the first matching row; the subsequent
`UPDATE ... WHERE id = ?` then rewrites exactly that row, so the autoincrement
id column itself need not be modelled. -/

/-- One row of `intent_history`.  `cachedPlan = none` is SQL `NULL`. -/
structure IntentEntry where
  intent : String
  focusedWindow : String
  executedAt : Nat
  successCount : Nat
  cachedPlan : Option String := none
deriving DecidableEq, Repr

/-- The `intent_history` table in rowid order. -/
abbrev IntentDB := List IntentEntry

/-- Rewrite the first row satisfying `p` (the `SELECT ... LIMIT 1` /
`UPDATE ... WHERE id` pair); `none` when no row matches. -/
def updateFirstRow (p : IntentEntry → Bool) (f : IntentEntry → IntentEntry) :
    List IntentEntry → Option (List IntentEntry)
  | [] => none
  | e :: rest =>
      if p e then some (f e :: rest)
      else (updateFirstRow p f rest).map (fun r => e :: r)

/-- The `WHERE intent = ? AND focused_window = ?` predicate. -/
def rowMatches (intent focus : String) (e : IntentEntry) : Bool :=
  e.intent == intent && e.focusedWindow == focus

/-- The `UPDATE` of an existing row: increment the count, touch the
timestamp, overwrite the plan. -/
def bumpRow (now : Nat) (plan : String) (e : IntentEntry) : IntentEntry :=
  { e with successCount := e.successCount + 1, executedAt := now, cachedPlan := some plan }

/-- `IntentHistoryRepository.RecordSuccess`: upsert on `(intent, focus)`.
A fresh row starts at `success_count = 1`; an existing row is incremented,
its timestamp touched and its `cached_plan` overwritten (possibly with the
empty string). -/
def recordSuccess (now : Nat) (db : IntentDB) (intent focus plan : String) :
    IntentDB :=
  match updateFirstRow (rowMatches intent focus) (bumpRow now plan) db with
  | some db2 => db2
  | none =>
      db ++ [{ intent := intent, focusedWindow := focus, executedAt := now,
               successCount := 1, cachedPlan := some plan }]

/-- `IntentHistoryRepository.GetTrustScore`: `success_count` of the first
matching row, 0 when absent. -/
def getTrustScore (db : IntentDB) (intent focus : String) : Nat :=
  match db.find? (fun e => e.intent == intent && e.focusedWindow == focus) with
  | some e => e.successCount
  | none => 0

/-- The `WHERE` clause of `GetReflex`: matching intent, `success_count > 5`,
`cached_plan IS NOT NULL AND cached_plan != ''`. -/
def reflexQualifies (intent : String) (e : IntentEntry) : Bool :=
  e.intent == intent && decide (5 < e.successCount) &&
    (match e.cachedPlan with
     | some q => q ≠ ""
     | none => false)

/-- The accumulator of the `ORDER BY executed_at DESC LIMIT 1` scan: keep
whichever row executed later (the earlier row on a tie). -/
def pickLater (best : Option IntentEntry) (e : IntentEntry) : Option IntentEntry :=
  match best with
  | none => some e
  | some b => if e.executedAt > b.executedAt then some e else some b

/-- `ORDER BY executed_at DESC LIMIT 1` over the qualifying rows: the first
row attaining the maximal timestamp. -/
def selectReflex (db : IntentDB) (intent : String) : Option IntentEntry :=
  (db.filter (reflexQualifies intent)).foldl pickLater none

/-- `IntentHistoryRepository.GetReflex`: `(cached_plan, success_count)` of the
selected row, `("", 0)` when no row qualifies. -/
def getReflex (db : IntentDB) (intent : String) : String × Nat :=
  match selectReflex db intent with
  | some e => (e.cachedPlan.getD "", e.successCount)
  | none => ("", 0)

/-- `IntentHistoryRepository.InvalidateReflex`:
`SET cached_plan = NULL WHERE intent = ?`. -/
def invalidateReflex (db : IntentDB) (intent : String) : IntentDB :=
  db.map (fun e => if e.intent == intent then { e with cachedPlan := none } else e)

/-- A repository mutation, for stating temporal properties over call
sequences. -/
inductive RepoOp where
  | record (intent focus plan : String) (now : Nat)
  | invalidate (intent : String)
deriving DecidableEq, Repr

/-- Apply one repository mutation. -/
def applyOp (db : IntentDB) : RepoOp → IntentDB
  | RepoOp.record intent focus plan now => recordSuccess now db intent focus plan
  | RepoOp.invalidate intent => invalidateReflex db intent

/-- Apply a sequence of repository mutations, oldest first. -/
def applyOps (ops : List RepoOp) (db : IntentDB) : IntentDB :=
  ops.foldl applyOp db

/-- `op` is a `RecordSuccess` for `intent` carrying a non-empty plan — the
only mutation that can repopulate the reflex cache for `intent`. -/
def suppliesPlan (intent : String) : RepoOp → Prop
  | RepoOp.record i _ p _ => i = intent ∧ p ≠ ""
  | RepoOp.invalidate _ => False

instance (intent : String) (op : RepoOp) : Decidable (suppliesPlan intent op) := by
  cases op <;> simp [suppliesPlan] <;> infer_instance

/-! ## JSON-RPC gateway (`internal/gateway/server.go`)

A connection is a sequence of well-formed frames processed by
`handleConnection`; per-frame JSON parse failures only concern malformed text
and are outside the claims, so frames are modelled structurally.  The
connection loop never exits in response to a handler error: every frame
receives a reply. -/

/-- An incoming frame, with the `connect` parameters inlined (other methods'
parameters are irrelevant to the claims). -/
structure GwFrame where
  jsonrpc : String := "2.0"
  method : String
  token : String := ""
  clientType : String := ""
deriving DecidableEq, Repr

/-- Per-connection client state (`gateway.Client`). -/
structure GwClient where
  authenticated : Bool := false
  ctype : String := ""
deriving DecidableEq, Repr

/-- The reply to one frame: a result for `method`, or an error with a
JSON-RPC code. -/
inductive GwReply where
  | result (method : String)
  | failure (code : Int)
deriving DecidableEq, Repr

/-- `protocol.ErrCodeInvalidRequest`. -/
def errCodeInvalidRequest : Int := -32600
/-- `protocol.ErrCodeMethodNotFound`. -/
def errCodeMethodNotFound : Int := -32601
/-- `protocol.ErrCodeAuthFailed`. -/
def errCodeAuthFailed : Int := -32001

/-- The registered method table (`registerHandlers`). -/
def gwMethods : List String :=
  ["connect", "wake", "talk_mode", "exec.request", "exec.resolve",
   "memory.store", "memory.search", "focus.update", "session.snapshot",
   "session.update", "registry.snapshot"]

/-- `Server.handleConnect`: token check, then mark the client authenticated
and record its type. -/
def handleConnect (authToken : String) (c : GwClient) (f : GwFrame) :
    GwClient × GwReply :=
  if f.token ≠ authToken then (c, GwReply.failure errCodeAuthFailed)
  else ({ authenticated := true, ctype := f.clientType }, GwReply.result "connect")

/-- One iteration of `handleConnection` + `dispatchMethod`: version check,
`connect` always dispatched, anything else requiring authentication, then the
handler table. -/
def processFrame (authToken : String) (c : GwClient) (f : GwFrame) :
    GwClient × GwReply :=
  if f.jsonrpc ≠ "2.0" then (c, GwReply.failure errCodeInvalidRequest)
  else if f.method = "connect" then handleConnect authToken c f
  else if !c.authenticated then (c, GwReply.failure errCodeAuthFailed)
  else if gwMethods.contains f.method then (c, GwReply.result f.method)
  else (c, GwReply.failure errCodeMethodNotFound)

/-- The whole connection loop: every frame is processed and answered; the
loop ends only when the client stops sending. -/
def runConn (authToken : String) (c : GwClient) :
    List GwFrame → GwClient × List GwReply
  | [] => (c, [])
  | f :: rest =>
      let (c2, r) := processFrame authToken c f
      let (c3, rs) := runConn authToken c2 rest
      (c3, r :: rs)

/-! ## Helper lemmas -/

/-- Whatever the per-action loop exits with, a completed pass computes the
running maximum when every action passes the allowlist, the path check and
the keyword sweep. -/
theorem validateLoop_all_pass (trust : String → Nat) (req : ValidationRequest) :
    ∀ (l : List (Nat × LegacyAction)) (acc : Int),
      (∀ p ∈ l, allowedActionTypes (goToUpper p.2.type) = true ∧
        validateActionPath p.2 = none ∧ containsBlockedKeyword p.2 = false) →
      validateLoop trust req l acc =
        Sum.inr (l.foldl
          (fun m p => if evaluateActionRisk p.2 > m then evaluateActionRisk p.2 else m)
          acc) := by
  intro l
  induction l with
  | nil => intro acc _; rfl
  | cons p rest ih =>
      intro acc h
      obtain ⟨hA, hP, hK⟩ := h p (List.mem_cons_self p rest)
      obtain ⟨i, a⟩ := p
      simp only [validateLoop, hA, hP, hK, Bool.not_true, Bool.false_eq_true,
        if_false, List.foldl_cons]
      exact ih _ (fun q hq => h q (List.mem_cons_of_mem _ hq))

/-- The risk fold over the enumerated action list ignores the indices. -/
theorem enumFrom_foldl_risk :
    ∀ (l : List LegacyAction) (n : Nat) (acc : Int),
      (enumFrom n l).foldl
          (fun m p => if evaluateActionRisk p.2 > m then evaluateActionRisk p.2 else m)
          acc =
        l.foldl (fun m a => if evaluateActionRisk a > m then evaluateActionRisk a else m)
          acc := by
  intro l
  induction l with
  | nil => intro n acc; rfl
  | cons a rest ih => intro n acc; simp only [enumFrom, List.foldl_cons]; exact ih _ _

/-- Membership through enumeration. -/
theorem enumFrom_mem {α : Type} :
    ∀ {l : List α} {n : Nat} {p : Nat × α}, p ∈ enumFrom n l → p.2 ∈ l := by
  intro l
  induction l with
  | nil => intro n p h; cases h
  | cons a rest ih =>
      intro n p h
      simp only [enumFrom, List.mem_cons] at h
      rcases h with rfl | h
      · exact List.mem_cons_self a rest
      · exact List.mem_cons_of_mem _ (ih h)

/-! ## Claim C5 — one audit entry per validation -/

/-- C5 (counterexample): the claim states that *every* call to
`ValidateAction`, including edge cases, appends exactly one audit entry.  The
nil-request guard at the top of the function returns a blocked result without
calling `logAudit`, so that call appends zero entries. -/
theorem C5_nil_request_no_audit :
    ((validateActionGo "" (fun _ => 0) none).2).length = 0 ∧
    (validateActionGo "" (fun _ => 0) none).1.blocked = true := ⟨rfl, rfl⟩

/-- C5 (amended): every call of `ValidateAction` on a non-nil request appends
exactly one audit entry before returning; only the nil-request guard returns
without auditing. -/
theorem C5_one_audit_per_validation (fw : String) (trust : String → Nat)
    (req : ValidationRequest) :
    ((validateActionGo fw trust (some req)).2).length = 1 := by
  simp only [validateActionGo]
  rcases h : validateLoop trust req (enumFrom 0 req.actions) riskNone with res | m
  · simp [h]
  · simp only [h]
    split
    · rfl
    · split <;> rfl

/-! ## Claim C10 — malformed action JSON can never yield an approval -/

/-- C10: when the `actions` field of an `exec.request` cannot be unmarshalled
as a list of actions, `RequestApproval` substitutes a single `UNKNOWN` action
carrying the raw bytes; `UNKNOWN` is not in the allowlist, so the request is
denied with the allowlist reason — malformed action JSON never yields an
approval. -/
theorem C10_malformed_actions_denied (fw : String) (trust : String → Nat)
    (freshId : String) (req : ExecApprovalParams)
    (h : req.actionsParse = none) :
    (requestApproval fw trust freshId req).approved = false ∧
    (requestApproval fw trust freshId req).reason =
      "Action type \x27UNKNOWN\x27 is not allowed" := by
  have ha : allowedActionTypes (goToUpper "UNKNOWN") = false := by decide
  simp only [requestApproval, h, validateActionGo, enumFrom, validateLoop, ha,
    Bool.not_false, if_true]
  exact ⟨rfl, rfl⟩

/-- C10 (witness): a concrete `exec.request` whose `actions` bytes are not a
JSON list is denied. -/
theorem C10_malformed_actions_denied_witness :
    (requestApproval "Notes" (fun _ => 0) "uuid-1"
        { requestID := "", intent := "do something", actionsRaw := "not json",
          actionsParse := none }).approved = false :=
  (C10_malformed_actions_denied "Notes" (fun _ => 0) "uuid-1"
    { requestID := "", intent := "do something", actionsRaw := "not json",
      actionsParse := none } rfl).1

/-! ## Claim C7 — focus gate -/

/-- C7 (counterexample): the claim says a non-empty `expectedWindow` that is
not contained in the current focus leads to denial *including when the
current focus is empty or unset*.  The conscience validator's focus gate is
guarded by `v.focusedWindow != ""`: with an empty focus, a request expecting
"Gmail" is approved rather than denied. -/
theorem C7_empty_focus_not_denied :
    ((validateActionGo "" (fun _ => 0)
        (some ⟨"r1", "check inbox", [], "Gmail", false⟩)).1).valid = true ∧
    ((validateActionGo "" (fun _ => 0)
        (some ⟨"r1", "check inbox", [], "Gmail", false⟩)).1).blocked = false := by
  exact ⟨rfl, rfl⟩

/-- C7 (amended): in the legacy kernel, any request with a non-empty
`expectedWindow` whose lower-cased current focus (even the empty one) does not
contain the lower-cased `expectedWindow` is denied with error code
`FOCUS_MISMATCH`, before any other check; the conscience validator applies its
focus gate only when the current focus is additionally non-empty, and its
denial carries a focus-mismatch reason but no error code field. -/
theorem C7_focus_gate :
    (∀ (fw : String) (trust : String → String → Nat) (cfg : KernelConfig)
        (req : GRequest), req.expectedWindow ≠ "" →
        goContains (goToLower fw) (goToLower req.expectedWindow) = false →
        (evaluatePermission fw trust cfg req).approved = false ∧
        (evaluatePermission fw trust cfg req).errorCode = "FOCUS_MISMATCH" ∧
        (evaluatePermission fw trust cfg req).reason =
          "Focus mismatch: Expected \x27" ++ req.expectedWindow
             ++ "\x27, but focused on \x27" ++ fw ++ "\x27") ∧
    (∀ (fw : String) (trust : String → Nat) (rid intent ew : String),
        ew ≠ "" → fw ≠ "" →
        goContains (goToLower fw) (goToLower ew) = false →
        ((validateActionGo fw trust (some ⟨rid, intent, [], ew, false⟩)).1).valid
            = false ∧
        ((validateActionGo fw trust (some ⟨rid, intent, [], ew, false⟩)).1).blocked
            = true ∧
        ((validateActionGo fw trust (some ⟨rid, intent, [], ew, false⟩)).1).reason
            = "Focus mismatch: expected \x27" ++ ew ++ "\x27, got \x27" ++ fw
               ++ "\x27") := by
  constructor
  · intro fw trust cfg req hne hnc
    simp only [evaluatePermission, hnc, Bool.not_false, Bool.and_true]
    rw [if_pos (decide_eq_true hne)]
    exact ⟨rfl, rfl, rfl⟩
  · intro fw trust rid intent ew h1 h2 h3
    refine ⟨?_, ?_, ?_⟩ <;>
      · simp only [validateActionGo, enumFrom, validateLoop]
        simp [h1, h2, h3, riskNone, riskHigh]

/-- C7 (witness): the amended theorem at the spec's own scenario — expecting
"Gmail" while "Terminal" is focused — and at an empty legacy-kernel focus. -/
theorem C7_focus_gate_witness :
    ((evaluatePermission "Terminal" (fun _ _ => 0) legacyDefaultConfig
        { id := "p3", intent := "read mail", actions := [],
          expectedWindow := "Gmail" }).approved = false ∧
      (evaluatePermission "Terminal" (fun _ _ => 0) legacyDefaultConfig
        { id := "p3", intent := "read mail", actions := [],
          expectedWindow := "Gmail" }).errorCode = "FOCUS_MISMATCH") ∧
    (evaluatePermission "" (fun _ _ => 0) legacyDefaultConfig
        { id := "p4", intent := "read mail", actions := [],
          expectedWindow := "Gmail" }).approved = false ∧
    ((validateActionGo "Terminal" (fun _ => 0)
        (some ⟨"r2", "read mail", [], "Gmail", false⟩)).1).blocked = true := by
  have h1 := C7_focus_gate.1 "Terminal" (fun _ _ => 0) legacyDefaultConfig
    { id := "p3", intent := "read mail", actions := [], expectedWindow := "Gmail" }
    (by decide) (by decide)
  have h2 := C7_focus_gate.1 "" (fun _ _ => 0) legacyDefaultConfig
    { id := "p4", intent := "read mail", actions := [], expectedWindow := "Gmail" }
    (by decide) (by decide)
  have h3 := C7_focus_gate.2 "Terminal" (fun _ => 0) "r2" "read mail" "Gmail"
    (by decide) (by decide) (by decide)
  exact ⟨⟨h1.1, h1.2.1⟩, h2.1, h3.2.1⟩

/-! ## Claim C4 — SPEAK payload and the blocked-keyword sweep -/

/-- C4 (counterexample): the claim exempts `SPEAK` payloads from the
blocked-keyword sweep.  That exemption exists only in the legacy kernel; the
conscience validator's `containsBlockedKeyword` sweeps the raw payload bytes
of every action type, so a proposal whose only action is a `SPEAK` whose
payload contains the configured keyword "password" is denied by the keyword
rule. -/
theorem C4_speak_swept_by_validator :
    ((validateActionGo "" (fun _ => 0)
        (some ⟨"r1", "read it back",
          [{ type := "SPEAK", payloadRaw := "\x7b\"text\":\"your password is hunter2\"\x7d",
             payloadParse := some [("text", JVal.jstr "your password is hunter2")] }],
          "", false⟩)).1).blocked = true ∧
    ((validateActionGo "" (fun _ => 0)
        (some ⟨"r1", "read it back",
          [{ type := "SPEAK", payloadRaw := "\x7b\"text\":\"your password is hunter2\"\x7d",
             payloadParse := some [("text", JVal.jstr "your password is hunter2")] }],
          "", false⟩)).1).reason = "Action 0 contains blocked keyword pattern" := by
  exact ⟨by decide, by decide⟩

/-- C4 (amended): in the legacy kernel's `isDangerousAction` the payload of a
`SPEAK` action is exempt from the keyword sweep — a `SPEAK` action is never
dangerous under the default configuration, whatever its payload, and a request
whose only action speaks the word "delete" is approved — while the same
payload under the checked `TYPE` field list is flagged dangerous.  The
conscience validator's sweep has no such exemption. -/
theorem C4_speak_exemption_legacy_kernel :
    (∀ payload : List (String × GVal),
        isDangerousAction legacyDefaultConfig ⟨"SPEAK", payload⟩ = false) ∧
    isDangerousAction legacyDefaultConfig
      ⟨"TYPE", [("text", GVal.gstr "please delete the file")]⟩ = true ∧
    (evaluatePermission "Notes" (fun _ _ => 0) legacyDefaultConfig
      ⟨"p1", "read back the note",
        [⟨"SPEAK", [("text", GVal.gstr "please delete the file")]⟩], ""⟩).approved
       = true := by
  refine ⟨?_, by decide, by decide⟩
  intro payload
  have h1 : (legacyDefaultConfig.blockedKeywords.any
      (fun kw => goContains (goToLower "SPEAK") (goToLower kw))) = false := by decide
  simp [isDangerousAction, h1]

/-! ## Claim C6 — override gate -/

/-- A `WRITE` of a safe relative path (risk 7 by type), no override. -/
def c6WriteAction : LegacyAction :=
  ⟨"WRITE", "", "\x7b\"path\":\"data/draft.md\"\x7d",
   some [("path", JVal.jstr "data/draft.md")], 0⟩

/-- The proposal around `c6WriteAction`. -/
def c6WriteReq : ValidationRequest := ⟨"r1", "save draft", [c6WriteAction], "", false⟩

/-- A `WRITE` (risk 7) whose content carries the blocked keyword
"password". -/
def c6KeywordAction : LegacyAction :=
  ⟨"WRITE", "", "\x7b\"path\":\"a.txt\",\"content\":\"my password\"\x7d",
   some [("path", JVal.jstr "a.txt"), ("content", JVal.jstr "my password")], 0⟩

/-- The proposal around `c6KeywordAction`. -/
def c6KeywordReq : ValidationRequest := ⟨"r2", "save note", [c6KeywordAction], "", false⟩

/-- C6 (counterexample): the claim promises the denial reason
"high-risk action requires explicit override".  (i) On a high-risk proposal
that reaches the override gate, the code's reason is
"High risk action (level 7) requires explicit override", not the claimed
string.  (ii) A proposal of computed risk 7 without override whose payload
also carries a blocked keyword is denied by the earlier keyword sweep with the
keyword reason, so the claimed reason is not produced at all. -/
theorem C6_reason_counterexample :
    (((validateActionGo "" (fun _ => 0) (some c6WriteReq)).1).valid = false ∧
      ((validateActionGo "" (fun _ => 0) (some c6WriteReq)).1).reason =
        "High risk action (level 7) requires explicit override" ∧
      ((validateActionGo "" (fun _ => 0) (some c6WriteReq)).1).reason ≠
        "high-risk action requires explicit override") ∧
    (computedRisk c6KeywordReq.actions ≥ riskHigh ∧
      c6KeywordReq.override = false ∧
      ((validateActionGo "" (fun _ => 0) (some c6KeywordReq)).1).reason =
        "Action 0 contains blocked keyword pattern") := by
  exact ⟨⟨by decide, by decide, by decide⟩, by decide, by decide, by decide⟩

/-- C6 (amended): for every proposal all of whose actions pass the allowlist,
the path check and the keyword sweep, with computed risk (the maximum over its
actions of the declared risk when positive, else the type's base risk) at
least `HIGH = 7` and the override flag false, validation denies it with the
reason "High risk action (level r) requires explicit override", `r` the
computed risk. -/
theorem C6_override_gate (fw : String) (trust : String → Nat)
    (req : ValidationRequest)
    (hA : ∀ a ∈ req.actions, allowedActionTypes (goToUpper a.type) = true)
    (hP : ∀ a ∈ req.actions, validateActionPath a = none)
    (hK : ∀ a ∈ req.actions, containsBlockedKeyword a = false)
    (hR : computedRisk req.actions ≥ riskHigh)
    (hO : req.override = false) :
    ((validateActionGo fw trust (some req)).1).valid = false ∧
    ((validateActionGo fw trust (some req)).1).blocked = true ∧
    ((validateActionGo fw trust (some req)).1).reason =
      "High risk action (level " ++ toString (computedRisk req.actions)
         ++ ") requires explicit override" := by
  have hloop : validateLoop trust req (enumFrom 0 req.actions) riskNone =
      Sum.inr (computedRisk req.actions) := by
    rw [validateLoop_all_pass trust req (enumFrom 0 req.actions) riskNone
      (fun p hp => ⟨hA _ (enumFrom_mem hp), hP _ (enumFrom_mem hp),
        hK _ (enumFrom_mem hp)⟩)]
    rw [enumFrom_foldl_risk]
    rfl
  simp only [validateActionGo, hloop]
  rw [if_pos (by simp [hO, decide_eq_true hR])]
  exact ⟨rfl, rfl, rfl⟩

/-- C6 (witness): the amended theorem at the write-to-safe-path proposal. -/
theorem C6_override_gate_witness :
    ((validateActionGo "Notes" (fun _ => 0) (some c6WriteReq)).1).blocked = true ∧
    ((validateActionGo "Notes" (fun _ => 0) (some c6WriteReq)).1).reason =
      "High risk action (level "
         ++ toString (computedRisk c6WriteReq.actions)
         ++ ") requires explicit override" := by
  have h := C6_override_gate "Notes" (fun _ => 0) c6WriteReq
    (by decide) (by decide) (by decide) (by decide) rfl
  exact ⟨h.2.1, h.2.2⟩

/-! ## Claim C8 — reflex cache -/

/-- The element kept by one `pickLater` step dominates both inputs. -/
theorem pickLater_keeps (b : Option IntentEntry) (a : IntentEntry) :
    ∃ k, pickLater b a = some k ∧ a.executedAt ≤ k.executedAt ∧
      ∀ bb, b = some bb → bb.executedAt ≤ k.executedAt := by
  cases b with
  | none =>
      exact ⟨a, rfl, le_refl _, by intro bb h; cases h⟩
  | some bb =>
      by_cases h : a.executedAt > bb.executedAt
      · refine ⟨a, ?_, le_refl _, ?_⟩
        · simp [pickLater, h]
        · intro bb2 h2
          cases h2
          exact Nat.le_of_lt h
      · refine ⟨bb, ?_, Nat.le_of_not_lt h, ?_⟩
        · simp [pickLater, h]
        · intro bb2 h2
          cases h2
          exact le_refl _

/-- An element produced by the `pickLater` fold is the accumulator or a
member of the list. -/
theorem pickLater_fold_mem :
    ∀ (l : List IntentEntry) (b : Option IntentEntry) (e : IntentEntry),
      l.foldl pickLater b = some e → b = some e ∨ e ∈ l := by
  intro l
  induction l with
  | nil => intro b e h; exact Or.inl h
  | cons a rest ih =>
      intro b e h
      simp only [List.foldl_cons] at h
      rcases ih (pickLater b a) e h with h2 | h2
      · cases b with
        | none =>
            simp only [pickLater] at h2
            cases h2
            exact Or.inr (List.mem_cons_self _ _)
        | some bb =>
            simp only [pickLater] at h2
            by_cases h3 : a.executedAt > bb.executedAt
            · rw [if_pos h3] at h2
              cases h2
              exact Or.inr (List.mem_cons_self _ _)
            · rw [if_neg h3] at h2
              exact Or.inl h2
      · exact Or.inr (List.mem_cons_of_mem _ h2)

/-- The element produced by the `pickLater` fold dominates the list and the
accumulator. -/
theorem pickLater_fold_ge :
    ∀ (l : List IntentEntry) (b : Option IntentEntry) (e : IntentEntry),
      l.foldl pickLater b = some e →
      (∀ x ∈ l, x.executedAt ≤ e.executedAt) ∧
      (∀ bb, b = some bb → bb.executedAt ≤ e.executedAt) := by
  intro l
  induction l with
  | nil =>
      intro b e h
      refine ⟨?_, ?_⟩
      · intro x hx; cases hx
      · intro bb hb
        rw [hb] at h
        cases h
        exact le_refl _
  | cons a rest ih =>
      intro b e h
      simp only [List.foldl_cons] at h
      obtain ⟨k, hk, hak, hbk⟩ := pickLater_keeps b a
      rw [hk] at h
      obtain ⟨hrest, hacc⟩ := ih (some k) e h
      have hke : k.executedAt ≤ e.executedAt := hacc k rfl
      refine ⟨?_, ?_⟩
      · intro x hx
        rcases List.mem_cons.mp hx with rfl | hx2
        · exact Nat.le_trans hak hke
        · exact hrest x hx2
      · intro bb hb
        exact Nat.le_trans (hbk bb hb) hke

/-- Unpack `reflexQualifies`. -/
theorem reflexQualifies_spec (i : String) (e : IntentEntry)
    (h : reflexQualifies i e = true) :
    e.intent = i ∧ 5 < e.successCount ∧ ∃ q, e.cachedPlan = some q ∧ q ≠ "" := by
  simp only [reflexQualifies, Bool.and_eq_true, beq_iff_eq, decide_eq_true_eq] at h
  obtain ⟨⟨h1, h2⟩, h3⟩ := h
  refine ⟨h1, h2, ?_⟩
  cases hq : e.cachedPlan with
  | none => rw [hq] at h3; cases h3
  | some q =>
      rw [hq] at h3
      simp only [ne_eq, decide_eq_true_eq] at h3
      exact ⟨q, rfl, h3⟩

/-- Every row of `db` whose plan could serve intent `i` is blank (NULL or the
empty string): the state `InvalidateReflex` establishes and plan-less
mutations preserve. -/
def plansClear (i : String) (db : IntentDB) : Prop :=
  ∀ e ∈ db, e.intent = i → e.cachedPlan = none ∨ e.cachedPlan = some ""

/-- `InvalidateReflex` blanks every plan of the intent. -/
theorem plansClear_invalidate (db : IntentDB) (i : String) :
    plansClear i (invalidateReflex db i) := by
  intro e he hi
  simp only [invalidateReflex, List.mem_map] at he
  obtain ⟨x, hx, hxe⟩ := he
  by_cases h : x.intent == i
  · rw [if_pos h] at hxe
    rw [← hxe]
    exact Or.inl rfl
  · rw [if_neg h] at hxe
    rw [← hxe] at hi
    exact absurd (beq_iff_eq.mpr hi) h

/-- With all plans for `i` blank, `GetReflex` finds nothing. -/
theorem getReflex_of_plansClear (db : IntentDB) (i : String)
    (h : plansClear i db) : getReflex db i = ("", 0) := by
  have hfil : db.filter (reflexQualifies i) = [] := by
    rw [List.filter_eq_nil_iff]
    intro e he hq
    obtain ⟨h1, _, q, hq2, hq3⟩ := reflexQualifies_spec i e hq
    rcases h e he h1 with h4 | h4
    · rw [h4] at hq2; cases hq2
    · rw [h4] at hq2
      exact hq3 (Option.some.inj hq2).symm
  simp [getReflex, selectReflex, hfil]

/-- Rows of an `updateFirstRow` result: untouched rows of the input, or the
rewrite of a row satisfying the predicate. -/
theorem updateFirstRow_mem (pr : IntentEntry → Bool) (f : IntentEntry → IntentEntry) :
    ∀ (l l2 : List IntentEntry), updateFirstRow pr f l = some l2 →
      ∀ e ∈ l2, e ∈ l ∨ ∃ x, x ∈ l ∧ pr x = true ∧ e = f x := by
  intro l
  induction l with
  | nil => intro l2 h; cases h
  | cons a rest ih =>
      intro l2 h e he
      simp only [updateFirstRow] at h
      by_cases hp : pr a
      · rw [if_pos hp] at h
        cases h
        rcases List.mem_cons.mp he with rfl | h2
        · exact Or.inr ⟨a, List.mem_cons_self _ _, hp, rfl⟩
        · exact Or.inl (List.mem_cons_of_mem _ h2)
      · rw [if_neg hp] at h
        cases hr : updateFirstRow pr f rest with
        | none => rw [hr] at h; cases h
        | some r2 =>
            rw [hr] at h
            simp only [Option.map_some'] at h
            cases h
            rcases List.mem_cons.mp he with rfl | h2
            · exact Or.inl (List.mem_cons_self _ _)
            · rcases ih r2 hr e h2 with h3 | ⟨x, hx, hpx, hex⟩
              · exact Or.inl (List.mem_cons_of_mem _ h3)
              · exact Or.inr ⟨x, List.mem_cons_of_mem _ hx, hpx, hex⟩

/-- Rows after `RecordSuccess`: old rows, or a row of the recorded intent
whose plan is the recorded plan. -/
theorem recordSuccess_mem (now : Nat) (db : IntentDB) (intent focus plan : String) :
    ∀ e ∈ recordSuccess now db intent focus plan,
      e ∈ db ∨ (e.intent = intent ∧ e.cachedPlan = some plan) := by
  intro e he
  simp only [recordSuccess] at he
  cases hu : updateFirstRow (rowMatches intent focus) (bumpRow now plan) db with
  | some db2 =>
      rw [hu] at he
      rcases updateFirstRow_mem _ _ db db2 hu e he with h | ⟨x, _, hpx, hex⟩
      · exact Or.inl h
      · simp only [rowMatches, Bool.and_eq_true, beq_iff_eq] at hpx
        exact Or.inr ⟨by rw [hex]; exact hpx.1, by rw [hex]; rfl⟩
  | none =>
      rw [hu] at he
      rcases List.mem_append.mp he with h | h
      · exact Or.inl h
      · simp only [List.mem_singleton] at h
        subst h
        exact Or.inr ⟨rfl, rfl⟩

/-- A mutation that does not supply a plan for `i` keeps the plans for `i`
blank. -/
theorem plansClear_applyOp (i : String) (db : IntentDB) (op : RepoOp)
    (hdb : plansClear i db) (hop : ¬ suppliesPlan i op) :
    plansClear i (applyOp db op) := by
  cases op with
  | record j focus p now =>
      intro e he hi
      rcases recordSuccess_mem now db j focus p e he with h | ⟨h1, h2⟩
      · exact hdb e h hi
      · rw [hi] at h1
        have hp : p = "" := by
          by_contra hne
          exact hop ⟨h1.symm, hne⟩
        rw [hp] at h2
        exact Or.inr h2
  | invalidate j =>
      intro e he hi
      simp only [applyOp, invalidateReflex, List.mem_map] at he
      obtain ⟨x, hx, hxe⟩ := he
      by_cases h : x.intent == j
      · rw [if_pos h] at hxe
        rw [← hxe]
        exact Or.inl rfl
      · rw [if_neg h] at hxe
        rw [← hxe]
        rw [← hxe] at hi
        exact hdb x hx hi

/-- Plan-less mutation sequences keep the plans for `i` blank. -/
theorem plansClear_applyOps (i : String) :
    ∀ (ops : List RepoOp) (db : IntentDB), plansClear i db →
      (∀ op ∈ ops, ¬ suppliesPlan i op) → plansClear i (applyOps ops db) := by
  intro ops
  induction ops with
  | nil => intro db h _; exact h
  | cons op rest ih =>
      intro db h hops
      exact ih (applyOp db op)
        (plansClear_applyOp i db op h (hops op (List.mem_cons_self _ _)))
        (fun o ho => hops o (List.mem_cons_of_mem _ ho))

/-- C8: `GetReflex` returns a non-empty plan only from a stored row of that
intent with `success_count > 5` and that non-empty plan, and the returned row
dominates every qualifying row in execution time; after `InvalidateReflex`
the reflex is gone, and it stays gone across any sequence of repository
mutations none of which is a `RecordSuccess` for that intent carrying a
non-empty plan. -/
theorem C8_reflex_cache :
    (∀ (db : IntentDB) (i p : String) (t : Nat),
        getReflex db i = (p, t) → p ≠ "" →
        ∃ e, e ∈ db ∧ e.intent = i ∧ 5 < e.successCount ∧
          e.cachedPlan = some p ∧ t = e.successCount ∧
          ∀ e2 ∈ db, reflexQualifies i e2 = true →
            e2.executedAt ≤ e.executedAt) ∧
    (∀ (db : IntentDB) (i : String),
        getReflex (invalidateReflex db i) i = ("", 0)) ∧
    (∀ (ops : List RepoOp) (db : IntentDB) (i : String),
        (∀ op ∈ ops, ¬ suppliesPlan i op) →
        getReflex (applyOps ops (invalidateReflex db i)) i = ("", 0)) := by
  refine ⟨?_, ?_, ?_⟩
  · intro db i p t hget hp
    cases hsel : selectReflex db i with
    | none =>
        simp only [getReflex, hsel] at hget
        cases hget
        exact absurd rfl hp
    | some e =>
        simp only [getReflex, hsel] at hget
        have hmem : e ∈ db.filter (reflexQualifies i) := by
          rcases pickLater_fold_mem _ none e hsel with h | h
          · cases h
          · exact h
        have hq : reflexQualifies i e = true := (List.mem_filter.mp hmem).2
        have hg1 : e.cachedPlan.getD "" = p := congrArg Prod.fst hget
        have hg2 : e.successCount = t := congrArg Prod.snd hget
        obtain ⟨h1, h2, q, hq2, _⟩ := reflexQualifies_spec i e hq
        have hqp : q = p := by rw [hq2] at hg1; simpa using hg1
        refine ⟨e, (List.mem_filter.mp hmem).1, h1, h2, ?_, hg2.symm, ?_⟩
        · rw [hq2, hqp]
        · intro e2 he2 hq2b
          exact (pickLater_fold_ge _ none e hsel).1 e2
            (List.mem_filter.mpr ⟨he2, hq2b⟩)
  · intro db i
    exact getReflex_of_plansClear _ _ (plansClear_invalidate db i)
  · intro ops db i hops
    exact getReflex_of_plansClear _ _
      (plansClear_applyOps i ops _ (plansClear_invalidate db i) hops)

/-- A concrete `intent_history` table: two trusted rows of the same intent
under different windows, one unrelated row. -/
def c8db : IntentDB :=
  [⟨"compose report", "Notes", 10, 6, some "P"⟩,
   ⟨"compose report", "Mail", 5, 7, some "Q"⟩,
   ⟨"other", "Notes", 20, 9, some "R"⟩]

/-- Mutations that never supply a plan for "compose report": a plan-less
success, an unrelated invalidation, an unrelated success. -/
def c8ops : List RepoOp :=
  [RepoOp.record "compose report" "Notes" "" 30,
   RepoOp.invalidate "other",
   RepoOp.record "different" "X" "plan" 40]

/-- C8 (witness): the reflex theorem at a concrete table — the returned plan
"P" comes from the most recently executed trusted row, and after invalidation
the reflex stays gone across plan-less mutations. -/
theorem C8_reflex_cache_witness :
    (∃ e, e ∈ c8db ∧ e.intent = "compose report" ∧ 5 < e.successCount ∧
      e.cachedPlan = some "P" ∧ 6 = e.successCount ∧
      ∀ e2 ∈ c8db, reflexQualifies "compose report" e2 = true →
        e2.executedAt ≤ e.executedAt) ∧
    getReflex (invalidateReflex c8db "compose report") "compose report" = ("", 0) ∧
    getReflex (applyOps c8ops (invalidateReflex c8db "compose report"))
      "compose report" = ("", 0) :=
  ⟨C8_reflex_cache.1 c8db "compose report" "P" 6 (by decide) (by decide),
   C8_reflex_cache.2.1 c8db "compose report",
   C8_reflex_cache.2.2 c8ops c8db "compose report" (by decide)⟩

/-! ## Claim C9 — failed connect on the message-framed plane -/

/-- C9 (counterexample): the claim states that a token mismatch on `connect`
closes the connection, so that no further frames can be issued.  The gateway's
connection loop only replies with an auth-failed error and keeps reading: a
frame sent after the failed `connect` is still read and answered. -/
theorem C9_failed_connect_keeps_connection :
    (runConn "secret-token" ⟨false, ""⟩
        [⟨"2.0", "connect", "wrong-token", "brain"⟩, ⟨"2.0", "wake", "", ""⟩]).2 =
      [GwReply.failure errCodeAuthFailed, GwReply.failure errCodeAuthFailed] ∧
    ((runConn "secret-token" ⟨false, ""⟩
        [⟨"2.0", "connect", "wrong-token", "brain"⟩, ⟨"2.0", "wake", "", ""⟩]).2).length
      = 2 := by
  exact ⟨by decide, by decide⟩

/-- C9 (amended): a failed `connect` does not close the connection; it is
answered with auth-failed (-32001), the client stays unauthenticated, and as
long as no successful `connect` arrives every frame — `connect` retries with
bad tokens included — is answered with auth-failed, so no other handler ever
executes for that client. -/
theorem C9_unauthenticated_never_executes (tok : String) :
    ∀ (frames : List GwFrame) (c : GwClient), c.authenticated = false →
      (∀ f ∈ frames, f.jsonrpc = "2.0") →
      (∀ f ∈ frames, f.method = "connect" → f.token ≠ tok) →
      (runConn tok c frames).2 =
        frames.map (fun _ => GwReply.failure errCodeAuthFailed) ∧
      (runConn tok c frames).1 = c := by
  intro frames
  induction frames with
  | nil => intro c hca _ _; exact ⟨rfl, rfl⟩
  | cons f rest ih =>
      intro c hca hv hc
      have hv1 : f.jsonrpc = "2.0" := hv f (List.mem_cons_self _ _)
      have hstep : processFrame tok c f = (c, GwReply.failure errCodeAuthFailed) := by
        by_cases hm : f.method = "connect"
        · have ht : f.token ≠ tok := hc f (List.mem_cons_self _ _) hm
          simp [processFrame, handleConnect, hv1, hm, ht]
        · simp [processFrame, hv1, hm, hca]
      obtain ⟨h1, h2⟩ := ih c hca
        (fun g hg => hv g (List.mem_cons_of_mem _ hg))
        (fun g hg => hc g (List.mem_cons_of_mem _ hg))
      simp [runConn, hstep, h1, h2]

/-- C9 (witness): the amended theorem at a concrete two-frame exchange — a
bad `connect` followed by a `wake` — with both frames answered auth-failed and
the client left unauthenticated. -/
theorem C9_unauthenticated_never_executes_witness :
    (runConn "secret-token" ⟨false, ""⟩
        [⟨"2.0", "connect", "bad", "brain"⟩, ⟨"2.0", "wake", "", ""⟩]).2 =
      [GwReply.failure errCodeAuthFailed, GwReply.failure errCodeAuthFailed] ∧
    (runConn "secret-token" ⟨false, ""⟩
        [⟨"2.0", "connect", "bad", "brain"⟩, ⟨"2.0", "wake", "", ""⟩]).1 =
      ⟨false, ""⟩ := by
  have h := C9_unauthenticated_never_executes "secret-token"
    [⟨"2.0", "connect", "bad", "brain"⟩, ⟨"2.0", "wake", "", ""⟩]
    ⟨false, ""⟩ rfl (by decide) (by decide)
  exact ⟨h.1, h.2⟩

/-! ## Claims C1, C2, C3 — `RequestPermission` and the system mode -/

/-- A benign spoken proposal. -/
def c1Req : GrpcPermissionRequest :=
  ⟨"greet the user", "t1", [⟨"SPEAK", [("text", "hello there")]⟩]⟩

/-- C1: the claim (spec invariant P2) says an `ActionCommand` is enqueued to
the Sentinel only for a proposal whose status is APPROVED or EXECUTING while
the system mode is ACTIVE.  `RequestPermission` never consults the persisted
mode or any proposal status: in SHADOW mode (the seeded default) a validated
proposal is immediately enqueued, and the outcome is identical under every
mode. -/
theorem C1_enqueue_ignores_mode :
    (requestPermission SystemMode.shadow "Notes" (fun _ => 0) 100 c1Req).enqueued =
      [⟨"t1-0", ⟨"SPEAK", [("text", "hello there")]⟩⟩] ∧
    (requestPermission SystemMode.shadow "Notes" (fun _ => 0) 100 c1Req).response.approved
      = true ∧
    ∀ m : SystemMode,
      requestPermission m "Notes" (fun _ => 0) 100 c1Req =
        requestPermission SystemMode.active "Notes" (fun _ => 0) 100 c1Req := by
  exact ⟨by decide, by decide, fun m => rfl⟩

/-- A benign click proposal. -/
def c2Req : GrpcPermissionRequest :=
  ⟨"open the notes app", "t2", [⟨"CLICK", [("target", "notes icon")]⟩]⟩

/-- C2: the claim says that in PAUSED mode every proposal is denied with
reason "paused".  No code path consults the persisted mode during validation
and the string "paused" appears in no decision: with the mode PAUSED, a benign
proposal is approved with an empty reason and its action is enqueued. -/
theorem C2_paused_mode_not_denied :
    (requestPermission SystemMode.paused "Notes" (fun _ => 0) 100 c2Req).response.approved
      = true ∧
    (requestPermission SystemMode.paused "Notes" (fun _ => 0) 100 c2Req).response.reason
      = "" ∧
    (requestPermission SystemMode.paused "Notes" (fun _ => 0) 100 c2Req).enqueued ≠ [] := by
  exact ⟨by decide, by decide, by decide⟩

/-- A benign typing proposal. -/
def c3Req : GrpcPermissionRequest :=
  ⟨"dictate a note", "t3", [⟨"TYPE", [("text", "buy milk")]⟩]⟩

/-- C3 (counterexample): the claim says trust counts change only on
successful completion, never on mere approval.  `RequestPermission` spawns
the `RecordSuccess` goroutine the moment the validator approves — no
completion event exists on this path — and one `RecordSuccess` raises the
`(intent, focus)` count from 0 to 1. -/
theorem C3_trust_bumped_on_approval :
    (requestPermission SystemMode.active "Notes" (fun _ => 0) 100 c3Req).recordedSuccess
      = true ∧
    (requestPermission SystemMode.active "Notes" (fun _ => 0) 100 c3Req).response.approved
      = true ∧
    getTrustScore ([] : IntentDB) "dictate a note" "Notes" = 0 ∧
    getTrustScore (recordSuccess 1 [] "dictate a note" "Notes" "")
      "dictate a note" "Notes" = 1 := by
  exact ⟨by decide, by decide, by decide, by decide⟩

/-- C3 (amended): the intent-history success recording fires exactly when the
proposal is approved — approval alone updates the trust count, denial leaves
it untouched; there is no completion-triggered update on this path. -/
theorem C3_recorded_iff_approved (mode : SystemMode) (fw : String)
    (trust : String → Nat) (chanFree : Nat) (req : GrpcPermissionRequest) :
    (requestPermission mode fw trust chanFree req).recordedSuccess =
      (requestPermission mode fw trust chanFree req).response.approved := by
  simp only [requestPermission]
  split <;> rfl

end Ghost
